import Mathlib

/-!
Verification development for the file-search CLI repository.

The definitions below are shallow embeddings of the Go source:
* `src/cmd` (`processBatch`, file `part_001`): bounded-concurrency batch executor,
  modelled as a small-step interleaving semantics over worker events;
* `src/internal/gemini/client.go`: name resolution and operation polling,
  modelled as pure functions over an environment of remote listings, paired
  with a count of remote listing calls;
* `src/internal/completion/completion.go` and the TTL cache (file `part_005`):
  completion lookups over the same environment plus an explicit cache state
  with integer timestamps.
-/

/-! ## Go string primitives (package strings) -/

/-- Embedding of Go strings.HasPrefix: byte/char-wise prefix test. -/
def hasPrefixGo (s pre : String) : Bool :=
  pre.data.isPrefixOf s.data

/-- Character-list substring test, the semantics of Go strings.Contains. -/
def listContains : List Char → List Char → Bool
  | [], sub => sub.isEmpty
  | l@(_ :: t), sub => sub.isPrefixOf l || listContains t sub

/-- Embedding of Go strings.Contains. -/
def containsGo (s sub : String) : Bool :=
  listContains s.data sub.data

/-- Embedding of Go strings.TrimPrefix. -/
def trimPrefixGo (s pre : String) : String :=
  if hasPrefixGo s pre then ⟨s.data.drop pre.data.length⟩ else s

/-! ## Constants (src/internal/constants/constants.go) -/

/-- StoreResourcePrefix constant. -/
def storeResourcePfx : String := "fileSearchStores/"

/-- FileResourcePrefix constant. -/
def fileResourcePfx : String := "files/"

/-- DocumentResourcePrefix constant. -/
def documentResourcePfx : String := "/documents/"

/-- OperationResourcePrefix constant. -/
def operationResourcePfx : String := "/operations/"

/-- GetModelList: the static default model list for completion. -/
def getModelList : List String :=
  ["gemini-2.5-flash", "gemini-2.5-flash-lite", "gemini-2.5-pro",
   "gemini-2.0-flash", "gemini-2.0-flash-lite"]

/-! ## Go map-assignment semantics

Go's `m[k] = v` on a `map[string]T` overwrites the entry if the key exists and
otherwise adds it.  We represent such a map as an association list whose key
order is insertion order. -/

/-- Go map assignment `m[k] = v` on an association list. -/
def goMapInsert {β : Type} (m : List (String × β)) (k : String) (v : β) :
    List (String × β) :=
  if m.any (fun p => p.1 == k) then
    m.map (fun p => if p.1 == k then (k, v) else p)
  else m ++ [(k, v)]

/-- Go map lookup `m[k]` on an association list. -/
def lookupF {β : Type} (m : List (String × β)) (k : String) : Option β :=
  (m.find? (fun p => p.1 == k)).map (fun p => p.2)

/-! ## Batch executor (processBatch, src/cmd file part_001)

`processBatch` dispatches one goroutine per input file, bounded by a semaphore
channel of capacity `Concurrency`.  After its `processor` call returns, a
worker (1) increments the shared `processedCount` under the mutexes and reads
the incremented value, (2) calls `OnProgress` outside any lock (only when
`OnProgress != nil && !Quiet`), and (3) inserts its outcome into
`result.Failed` or `result.Succeeded` under the mutex.  We model a run as an
interleaving (trace) of the atomic events of the workers and the dispatching
main loop; the data effect of each event is given by `bStep`. -/

/-- Atomic events of a `processBatch` run.  `disp w` is the main loop acquiring
a semaphore slot and spawning worker `w`; `incr w` is the critical section
incrementing `processedCount`; `prog w` is the `OnProgress` invocation;
`ins w` is the critical section inserting the outcome; `rel w` releases the
semaphore slot (the deferred channel receive). -/
inductive BEv : Type
  | disp (w : Nat)
  | incr (w : Nat)
  | prog (w : Nat)
  | ins (w : Nat)
  | rel (w : Nat)
deriving DecidableEq

/-- Worker index of an event. -/
def evWorker : BEv → Nat
  | .disp w => w
  | .incr w => w
  | .prog w => w
  | .ins w => w
  | .rel w => w

/-- Event kind discriminator (0 = disp, 4 = rel), used for the semaphore bound. -/
def evKind : BEv → Nat
  | .disp _ => 0
  | .incr _ => 1
  | .prog _ => 2
  | .ins _ => 3
  | .rel _ => 4

/-- The program order of the events of one worker.  `cp` records whether the
progress callback is actually invoked (`OnProgress != nil && !Quiet`). -/
def workerChain (cp : Bool) (w : Nat) : List BEv :=
  if cp then [.disp w, .incr w, .prog w, .ins w, .rel w]
  else [.disp w, .incr w, .ins w, .rel w]

/-- The traces `processBatch` can produce for `N` input files and semaphore
capacity `C`: every worker `w < N` performs its events exactly once in program
order, the main loop dispatches workers in input order, and at every point at
most `C` workers are between dispatch and release. -/
def ValidTrace (N C : Nat) (cp : Bool) (tr : List BEv) : Prop :=
  (∀ e ∈ tr, evWorker e < N) ∧
  (∀ w < N, tr.count (BEv.disp w) = 1) ∧
  (∀ w < N, tr.count (BEv.incr w) = 1) ∧
  (∀ w < N, tr.count (BEv.prog w) = (if cp then 1 else 0)) ∧
  (∀ w < N, tr.count (BEv.ins w) = 1) ∧
  (∀ w < N, tr.count (BEv.rel w) = 1) ∧
  (∀ w < N, (workerChain cp w).Sublist tr) ∧
  ((List.range N).map BEv.disp).Sublist tr ∧
  (∀ n ≤ tr.length,
    ((tr.take n).countP fun e => evKind e == 0) ≤
      ((tr.take n).countP fun e => evKind e == 4) + C)

/-- The mutable state of a `processBatch` run: `processedCount`, the `current`
value each worker read in its increment section, the sequence of `OnProgress`
invocations in invocation order (current count, file, error), and the result
accumulators. -/
structure BState where
  count : Nat
  cur : Nat → Nat
  progLog : List (Nat × String × Option String)
  succeeded : List String
  failed : List (String × String)

/-- Initial state of a run (empty result, zero counter). -/
def initB : BState :=
  { count := 0, cur := fun _ => 0, progLog := [], succeeded := [], failed := [] }

/-- Data effect of one atomic event.  `res w` is the error returned by
`processor` for worker `w` (`none` = success); `files.getD w ""` is the file
the worker was given. -/
def bStep (files : List String) (res : Nat → Option String) (st : BState) :
    BEv → BState
  | .disp _ => st
  | .rel _ => st
  | .incr w =>
      { st with count := st.count + 1,
                cur := fun w' => if w' = w then st.count + 1 else st.cur w' }
  | .prog w =>
      { st with progLog := st.progLog ++ [(st.cur w, files.getD w "", res w)] }
  | .ins w =>
      match res w with
      | some e => { st with failed := goMapInsert st.failed (files.getD w "") e }
      | none => { st with succeeded := st.succeeded ++ [files.getD w ""] }

/-- State after executing a trace. -/
def execB (files : List String) (res : Nat → Option String) (tr : List BEv) :
    BState :=
  tr.foldl (bStep files res) initB

/-- BatchResult (src/cmd file part_001). -/
structure BatchResult where
  succeeded : List String
  failed : List (String × String)
  total : Nat
deriving DecidableEq

/-- The `BatchResult` returned by `processBatch` after a complete trace. -/
def processBatchResult (files : List String) (res : Nat → Option String)
    (tr : List BEv) : BatchResult :=
  { succeeded := (execB files res tr).succeeded,
    failed := (execB files res tr).failed,
    total := files.length }

/-- The sequence of `OnProgress` invocations of a run, in invocation order. -/
def batchProgLog (files : List String) (res : Nat → Option String)
    (tr : List BEv) : List (Nat × String × Option String) :=
  (execB files res tr).progLog

/-! ## Remote service gateway environment (src/internal/gemini/client.go)

The remote API is out of scope; we model it as an environment giving, for each
listing endpoint, either a transport error or its pages.  The `List*` gateway
functions follow continuation tokens until none remain, so a successful
listing is the concatenation of all pages. -/

/-- A file-search store record as returned by the remote listing. -/
structure StoreRec where
  name : String
  displayName : String
deriving DecidableEq

/-- A raw-file record as returned by the remote listing. -/
structure FileRec where
  name : String
  displayName : String
deriving DecidableEq

/-- A document record as returned by the remote listing. -/
structure DocRec where
  name : String
  displayName : String
deriving DecidableEq

/-- A model record as returned by the remote listing. -/
structure ModelRec where
  name : String
deriving DecidableEq

/-- Remote environment: pages of each listing, or a transport error.
Documents are listed per store identifier.  `clientErr` models a failure of
`gemini.NewClient` (missing or rejected credentials). -/
structure Env where
  storePages : List (List StoreRec)
  storesErr : Option String
  filePages : List (List FileRec)
  filesErr : Option String
  docPages : String → List (List DocRec)
  docsErr : String → Option String
  modelPages : List (List ModelRec)
  modelsErr : Option String
  clientErr : Option String

/-- ListStores: full pagination, all pages concatenated in order. -/
def listStores (env : Env) : Except String (List StoreRec) :=
  match env.storesErr with
  | some e => .error e
  | none => .ok env.storePages.flatten

/-- ListFiles: full pagination. -/
def listFiles (env : Env) : Except String (List FileRec) :=
  match env.filesErr with
  | some e => .error e
  | none => .ok env.filePages.flatten

/-- ListDocuments scoped to a store identifier: full pagination. -/
def listDocuments (env : Env) (storeID : String) : Except String (List DocRec) :=
  match env.docsErr storeID with
  | some e => .error e
  | none => .ok (env.docPages storeID).flatten

/-- ListModels: full pagination. -/
def listModels (env : Env) : Except String (List ModelRec) :=
  match env.modelsErr with
  | some e => .error e
  | none => .ok env.modelPages.flatten

/-! ## Name resolution (src/internal/gemini/client.go)

Each resolver returns the resolution outcome paired with the number of remote
listing calls it performed. -/

/-- ResolveStoreName: canonical prefix short-circuits with zero remote calls;
otherwise one listing call and a first-match scan by display name. -/
def resolveStoreName (env : Env) (nameOrID : String) :
    Except String String × Nat :=
  if hasPrefixGo nameOrID storeResourcePfx then (.ok nameOrID, 0)
  else
    match listStores env with
    | .error e => (.error e, 1)
    | .ok stores =>
      match stores.find? (fun s => s.displayName == nameOrID) with
      | some s => (.ok s.name, 1)
      | none => (.error ("store not found: " ++ nameOrID), 1)

/-- ResolveFileName: same shape for raw files. -/
def resolveFileName (env : Env) (nameOrID : String) :
    Except String String × Nat :=
  if hasPrefixGo nameOrID fileResourcePfx then (.ok nameOrID, 0)
  else
    match listFiles env with
    | .error e => (.error e, 1)
    | .ok files =>
      match files.find? (fun f => f.displayName == nameOrID) with
      | some f => (.ok f.name, 1)
      | none => (.error ("file not found: " ++ nameOrID), 1)

/-- ResolveDocumentName: canonical infix short-circuits with zero remote
calls; otherwise the store reference is resolved first and the document
listing scoped to the resolved store is scanned. -/
def resolveDocumentName (env : Env) (storeNameOrID docNameOrID : String) :
    Except String String × Nat :=
  if containsGo docNameOrID documentResourcePfx then (.ok docNameOrID, 0)
  else
    match resolveStoreName env storeNameOrID with
    | (.error e, n) => (.error e, n)
    | (.ok storeID, n) =>
      match listDocuments env storeID with
      | .error e => (.error e, n + 1)
      | .ok docs =>
        match docs.find? (fun d => d.displayName == docNameOrID) with
        | some d => (.ok d.name, n + 1)
        | none =>
          (.error ("document not found in store " ++ storeID ++ ": " ++
            docNameOrID), n + 1)

/-- GetStoreNames (gateway): display names of all stores. -/
def gatewayStoreNames (env : Env) : Except String (List String) :=
  match listStores env with
  | .error e => .error e
  | .ok stores => .ok (stores.map (fun s => s.displayName))

/-- GetFileNames (gateway): display names of all raw files. -/
def gatewayFileNames (env : Env) : Except String (List String) :=
  match listFiles env with
  | .error e => .error e
  | .ok files => .ok (files.map (fun f => f.displayName))

/-- GetDocumentNames (gateway): display names of the documents of a store. -/
def gatewayDocumentNames (env : Env) (storeID : String) :
    Except String (List String) :=
  match listDocuments env storeID with
  | .error e => .error e
  | .ok docs => .ok (docs.map (fun d => d.displayName))

/-! ## TTL cache (src file part_005)

Go `time.Time` is modelled as an integer instant and `time.Duration` as an
integer number of nanoseconds; `time.Now().After(t)` is the strict comparison
`now > t`. -/

/-- One nanosecond-count per Go `time.Minute`. -/
def minuteNs : Int := 60000000000

/-- CacheEntry: cached values and their expiry instant. -/
structure CacheEntry where
  values : List String
  expiresAt : Int
deriving DecidableEq

/-- Cache: entries keyed by cache-key string, plus the configured TTL. -/
structure Cache where
  entries : List (String × CacheEntry)
  ttl : Int
deriving DecidableEq

/-- NewCache: a TTL of zero or less is coerced to five minutes. -/
def newCache (ttl : Int) : Cache :=
  { entries := [], ttl := if ttl ≤ 0 then 5 * minuteNs else ttl }

/-- Cache.Get at instant `now`: a missing entry and an entry whose expiry lies
strictly in the past both yield `(none, false)`. -/
def cacheGet (c : Cache) (now : Int) (key : String) :
    Option (List String) × Bool :=
  match lookupF c.entries key with
  | none => (none, false)
  | some e => if now > e.expiresAt then (none, false) else (some e.values, true)

/-- Cache.Set at instant `now`: overwrite and reset expiry to `now + ttl`. -/
def cacheSet (c : Cache) (now : Int) (key : String) (values : List String) :
    Cache :=
  { c with entries := goMapInsert c.entries key ⟨values, now + c.ttl⟩ }

/-- Cache.Clear: drop all entries. -/
def cacheClear (c : Cache) : Cache := { c with entries := [] }

/-! ## Completer (src/internal/completion/completion.go) -/

/-- Completer state: its cache and the enabled flag.  The lazily-created
client is represented by `Env.clientErr` (creation fails or succeeds the same
way each time within one completion call). -/
structure Completer where
  cache : Cache
  enabled : Bool

/-- Completer.GetStoreNames: disabled or any failure degrades to the empty
list; a fresh successful lookup is cached. -/
def getStoreNames (c : Completer) (env : Env) (now : Int) :
    List String × Completer :=
  if !c.enabled then ([], c)
  else
    match cacheGet c.cache now "stores" with
    | (some v, true) => (v, c)
    | _ =>
      match env.clientErr with
      | some _ => ([], c)
      | none =>
        match gatewayStoreNames env with
        | .error _ => ([], c)
        | .ok names =>
          (names, { c with cache := cacheSet c.cache now "stores" names })

/-- Completer.GetFileNames: same degradation pattern as store names. -/
def getFileNames (c : Completer) (env : Env) (now : Int) :
    List String × Completer :=
  if !c.enabled then ([], c)
  else
    match cacheGet c.cache now "files" with
    | (some v, true) => (v, c)
    | _ =>
      match env.clientErr with
      | some _ => ([], c)
      | none =>
        match gatewayFileNames env with
        | .error _ => ([], c)
        | .ok names =>
          (names, { c with cache := cacheSet c.cache now "files" names })

/-- Completer.GetDocumentNames: keyed by the raw caller-supplied store
reference; the store is resolved before listing documents. -/
def getDocumentNames (c : Completer) (env : Env) (now : Int)
    (storeRef : String) : List String × Completer :=
  if !c.enabled || storeRef == "" then ([], c)
  else
    match cacheGet c.cache now ("docs:" ++ storeRef) with
    | (some v, true) => (v, c)
    | _ =>
      match env.clientErr with
      | some _ => ([], c)
      | none =>
        match (resolveStoreName env storeRef).1 with
        | .error _ => ([], c)
        | .ok storeID =>
          match gatewayDocumentNames env storeID with
          | .error _ => ([], c)
          | .ok names =>
            (names,
             { c with cache := cacheSet c.cache now ("docs:" ++ storeRef) names })

/-- Completer.GetModelNames: every failure path falls back to the static
default model list; a successful non-empty listing is cached. -/
def getModelNames (c : Completer) (env : Env) (now : Int) :
    List String × Completer :=
  if !c.enabled then (getModelList, c)
  else
    match cacheGet c.cache now "models" with
    | (some v, true) => (v, c)
    | _ =>
      match env.clientErr with
      | some _ => (getModelList, c)
      | none =>
        match listModels env with
        | .error _ => (getModelList, c)
        | .ok models =>
          match models.map (fun m => trimPrefixGo m.name "models/") with
          | [] => (getModelList, c)
          | names =>
            (names, { c with cache := cacheSet c.cache now "models" names })

/-! ## Operation polling entry point (src/internal/gemini/client.go) -/

/-- OperationStatus, reduced to the fields the shape-check path can reach. -/
structure OpStatus where
  name : String
  done : Bool
  failed : Bool
  errorMessage : String
deriving DecidableEq

/-- Remote responses of the two operation-poll endpoints. -/
structure OpEnv where
  importRes : Except String OpStatus
  uploadRes : Except String OpStatus

/-- GetOperation: shape checks strictly before any remote call (the second
component counts remote poll calls); then the declared kind, or the
import-then-upload fallback when the kind is unspecified. -/
def getOperation (env : OpEnv) (operationName operationType : String) :
    Except String OpStatus × Nat :=
  if !hasPrefixGo operationName storeResourcePfx then
    (.error ("invalid operation name: must start with '" ++ storeResourcePfx ++ "'"), 0)
  else if !containsGo operationName operationResourcePfx then
    (.error ("invalid operation name: must contain '" ++ operationResourcePfx ++ "'"), 0)
  else if operationType == "import" then (env.importRes, 1)
  else if operationType == "upload" then (env.uploadRes, 1)
  else
    match env.importRes with
    | .ok s => (.ok s, 1)
    | .error _ => (env.uploadRes, 2)

/-! ## Helper lemmas: worker-index projections of a trace -/

/-- Worker index of an increment event, if any. -/
def incrW : BEv → Option Nat
  | .incr w => some w
  | _ => none

/-- Worker index of a progress event, if any. -/
def progW : BEv → Option Nat
  | .prog w => some w
  | _ => none

/-- Worker index of an insert event, if any. -/
def insW : BEv → Option Nat
  | .ins w => some w
  | _ => none

/-- Workers in order of their increment sections. -/
def incrWs (tr : List BEv) : List Nat := tr.filterMap incrW

/-- Workers in order of their progress callbacks. -/
def progWs (tr : List BEv) : List Nat := tr.filterMap progW

/-- Workers in order of their result inserts. -/
def insWs (tr : List BEv) : List Nat := tr.filterMap insW

lemma count_incrWs (tr : List BEv) (w : Nat) :
    (incrWs tr).count w = tr.count (BEv.incr w) := by
  induction tr with
  | nil => rfl
  | cons e t ih =>
    cases e <;>
      simp [incrWs, List.filterMap_cons, incrW, List.count_cons, BEv.incr.injEq] at ih ⊢ <;>
      omega

lemma count_progWs (tr : List BEv) (w : Nat) :
    (progWs tr).count w = tr.count (BEv.prog w) := by
  induction tr with
  | nil => rfl
  | cons e t ih =>
    cases e <;>
      simp [progWs, List.filterMap_cons, progW, List.count_cons, BEv.prog.injEq] at ih ⊢ <;>
      omega

lemma count_insWs (tr : List BEv) (w : Nat) :
    (insWs tr).count w = tr.count (BEv.ins w) := by
  induction tr with
  | nil => rfl
  | cons e t ih =>
    cases e <;>
      simp [insWs, List.filterMap_cons, insW, List.count_cons, BEv.ins.injEq] at ih ⊢ <;>
      omega

lemma count_range_eq (a N : Nat) : (List.range N).count a = if a < N then 1 else 0 := by
  induction N with
  | zero => simp
  | succ n ih =>
    rw [List.range_succ, List.count_append, ih]
    by_cases h1 : a < n
    · have h2 : a < n + 1 := Nat.lt_succ_of_lt h1
      have h3 : ¬ (n = a) := by omega
      simp [h1, h2, List.count_cons, h3]
    · by_cases h2 : a < n + 1
      · have h3 : n = a := by omega
        simp [h1, h2, List.count_cons, h3]
      · have h3 : ¬ (n = a) := by omega
        simp [h1, h2, List.count_cons, h3]

/-- A projection of a valid trace whose events occur exactly once per worker is
a permutation of the worker indices. -/
lemma perm_range_of_counts {N : Nat} {tr : List BEv} {g : Nat → BEv} {ws : List Nat}
    (hcount : ∀ w, ws.count w = tr.count (g w))
    (hone : ∀ w < N, tr.count (g w) = 1)
    (hgw : ∀ w, evWorker (g w) = w)
    (hmem : ∀ e ∈ tr, evWorker e < N) :
    ws.Perm (List.range N) := by
  rw [List.perm_iff_count]
  intro a
  rw [hcount, count_range_eq]
  by_cases ha : a < N
  · simp [ha, hone a ha]
  · simp only [ha, if_false]
    rw [List.count_eq_zero]
    intro hmem'
    exact ha (hgw a ▸ hmem _ hmem')

/-- In a list containing `b` at most once, if a two-element sublist `[a, b]`
occurs, then every prefix containing `b` also contains `a`. -/
lemma before_of_pair_sublist {α : Type} [DecidableEq α] :
    ∀ {tr : List α} {a b : α}, [a, b].Sublist tr → tr.count b ≤ 1 →
      ∀ n, b ∈ tr.take n → a ∈ tr.take n := by
  intro tr
  induction tr with
  | nil =>
    intro a b h hc n hb
    simp at h
  | cons t ts ih =>
    intro a b h hc n hb
    cases n with
    | zero => simp at hb
    | succ m =>
      simp only [List.take_succ_cons] at hb ⊢
      cases h with
      | cons₂ h' => exact List.mem_cons_self _ _
      | cons _ h' =>
        rcases List.mem_cons.mp hb with hbt | hbm
        · exfalso
          subst hbt
          have hbts : b ∈ ts := h'.subset (by simp)
          have h1 : 0 < ts.count b := List.count_pos_iff.mpr hbts
          rw [List.count_cons_self] at hc
          omega
        · have hc' : ts.count b ≤ 1 := by
            rw [List.count_cons] at hc
            omega
          exact List.mem_cons_of_mem _ (ih h' hc' m hbm)

@[simp] lemma incrWs_append (p q : List BEv) : incrWs (p ++ q) = incrWs p ++ incrWs q :=
  List.filterMap_append _ _ _

@[simp] lemma progWs_append (p q : List BEv) : progWs (p ++ q) = progWs p ++ progWs q :=
  List.filterMap_append _ _ _

@[simp] lemma insWs_append (p q : List BEv) : insWs (p ++ q) = insWs p ++ insWs q :=
  List.filterMap_append _ _ _

@[simp] lemma incrWs_one_disp (w : Nat) : incrWs [BEv.disp w] = [] := rfl
@[simp] lemma incrWs_one_incr (w : Nat) : incrWs [BEv.incr w] = [w] := rfl
@[simp] lemma incrWs_one_prog (w : Nat) : incrWs [BEv.prog w] = [] := rfl
@[simp] lemma incrWs_one_ins (w : Nat) : incrWs [BEv.ins w] = [] := rfl
@[simp] lemma incrWs_one_rel (w : Nat) : incrWs [BEv.rel w] = [] := rfl
@[simp] lemma progWs_one_disp (w : Nat) : progWs [BEv.disp w] = [] := rfl
@[simp] lemma progWs_one_incr (w : Nat) : progWs [BEv.incr w] = [] := rfl
@[simp] lemma progWs_one_prog (w : Nat) : progWs [BEv.prog w] = [w] := rfl
@[simp] lemma progWs_one_ins (w : Nat) : progWs [BEv.ins w] = [] := rfl
@[simp] lemma progWs_one_rel (w : Nat) : progWs [BEv.rel w] = [] := rfl
@[simp] lemma insWs_one_disp (w : Nat) : insWs [BEv.disp w] = [] := rfl
@[simp] lemma insWs_one_incr (w : Nat) : insWs [BEv.incr w] = [] := rfl
@[simp] lemma insWs_one_prog (w : Nat) : insWs [BEv.prog w] = [] := rfl
@[simp] lemma insWs_one_ins (w : Nat) : insWs [BEv.ins w] = [w] := rfl
@[simp] lemma insWs_one_rel (w : Nat) : insWs [BEv.rel w] = [] := rfl

@[simp] lemma bStep_disp (files : List String) (res : Nat → Option String)
    (st : BState) (w : Nat) : bStep files res st (BEv.disp w) = st := rfl

@[simp] lemma bStep_rel (files : List String) (res : Nat → Option String)
    (st : BState) (w : Nat) : bStep files res st (BEv.rel w) = st := rfl

lemma bStep_incr (files : List String) (res : Nat → Option String)
    (st : BState) (w : Nat) :
    bStep files res st (BEv.incr w) =
      { st with count := st.count + 1,
                cur := fun w' => if w' = w then st.count + 1 else st.cur w' } := rfl

lemma bStep_prog (files : List String) (res : Nat → Option String)
    (st : BState) (w : Nat) :
    bStep files res st (BEv.prog w) =
      { st with progLog := st.progLog ++ [(st.cur w, files.getD w "", res w)] } := rfl

lemma execB_append_one (files : List String) (res : Nat → Option String)
    (p : List BEv) (e : BEv) :
    execB files res (p ++ [e]) = bStep files res (execB files res p) e := by
  simp [execB, List.foldl_append]

lemma execB_take_inv (files : List String) (res : Nat → Option String) (cp : Bool)
    (C : Nat) (tr : List BEv) (hv : ValidTrace files.length C cp tr) :
    ∀ n,
      (execB files res (tr.take n)).count = (incrWs (tr.take n)).length ∧
      (execB files res (tr.take n)).progLog =
        (progWs (tr.take n)).map
          (fun w => ((execB files res (tr.take n)).cur w, files.getD w "", res w)) ∧
      (incrWs (tr.take n)).map (execB files res (tr.take n)).cur =
        List.range' 1 (incrWs (tr.take n)).length ∧
      (execB files res (tr.take n)).succeeded =
        ((insWs (tr.take n)).filter (fun w => (res w).isNone)).map
          (fun w => files.getD w "") ∧
      (execB files res (tr.take n)).failed =
        ((insWs (tr.take n)).filter (fun w => !(res w).isNone)).foldl
          (fun m w => goMapInsert m (files.getD w "") ((res w).getD "")) [] := by
  intro n
  induction n with
  | zero => simp [execB, initB, incrWs, progWs, insWs]
  | succ n ih =>
    rcases hget : tr[n]? with _ | e
    · have htake : tr.take (n + 1) = tr.take n := by
        rw [List.take_succ, hget]
        simp
      rw [htake]
      exact ih
    · have htake : tr.take (n + 1) = tr.take n ++ [e] := by
        rw [List.take_succ, hget]
        rfl
      have hmem : e ∈ tr := by
        obtain ⟨hlt, hEq⟩ := List.getElem?_eq_some.mp hget
        exact hEq ▸ List.getElem_mem hlt
      obtain ⟨ih1, ih2, ih3, ih4, ih5⟩ := ih
      rw [htake]
      cases e with
      | disp w =>
        rw [execB_append_one]
        simp only [bStep_disp, incrWs_append, progWs_append, insWs_append,
          incrWs_one_disp, progWs_one_disp, insWs_one_disp, List.append_nil]
        exact ⟨ih1, ih2, ih3, ih4, ih5⟩
      | rel w =>
        rw [execB_append_one]
        simp only [bStep_rel, incrWs_append, progWs_append, insWs_append,
          incrWs_one_rel, progWs_one_rel, insWs_one_rel, List.append_nil]
        exact ⟨ih1, ih2, ih3, ih4, ih5⟩
      | incr w =>
        have hwN : w < files.length := hv.1 _ hmem
        have hcnt1 : tr.count (BEv.incr w) = 1 := hv.2.2.1 w hwN
        have hzero : (tr.take n).count (BEv.incr w) = 0 := by
          have h1 : (tr.take (n + 1)).count (BEv.incr w) ≤ 1 := by
            rw [← hcnt1]
            exact (List.take_sublist _ _).count_le _
          have h2 : (tr.take (n + 1)).count (BEv.incr w) =
              (tr.take n).count (BEv.incr w) + 1 := by
            rw [htake, List.count_append]
            simp
          omega
        have hnotin_incr : w ∉ incrWs (tr.take n) := by
          rw [← List.count_eq_zero, count_incrWs, hzero]
        have hnotin_prog : w ∉ progWs (tr.take n) := by
          rw [← List.count_eq_zero, count_progWs, List.count_eq_zero]
          cases hcp : cp with
          | false =>
            have h0 : tr.count (BEv.prog w) = 0 := by
              have h3 := hv.2.2.2.1 w hwN
              rw [hcp] at h3
              simpa using h3
            intro hp
            have h4 : BEv.prog w ∈ tr := (List.take_sublist n tr).subset hp
            rw [List.count_eq_zero] at h0
            exact h0 h4
          | true =>
            have h1 : tr.count (BEv.prog w) = 1 := by
              have h3 := hv.2.2.2.1 w hwN
              rw [hcp] at h3
              simpa using h3
            have hchain := hv.2.2.2.2.2.2.1 w hwN
            rw [hcp] at hchain
            have hpair : [BEv.incr w, BEv.prog w].Sublist (workerChain true w) := by
              simp only [workerChain, if_pos]
              exact .cons _ (.cons₂ _ (.cons₂ _ (List.nil_sublist _)))
            intro hp
            have hincr : BEv.incr w ∈ tr.take n :=
              before_of_pair_sublist (hpair.trans hchain) (le_of_eq h1) n hp
            rw [List.count_eq_zero] at hzero
            exact hzero hincr
        rw [execB_append_one, bStep_incr]
        simp only [incrWs_append, progWs_append, insWs_append,
          incrWs_one_incr, progWs_one_incr, insWs_one_incr, List.append_nil]
        refine ⟨?_, ?_, ?_, ?_, ?_⟩
        · simp [ih1]
        · rw [ih2]
          refine List.map_congr_left ?_
          intro a ha
          have haw : a ≠ w := fun h => hnotin_prog (h ▸ ha)
          simp [haw]
        · rw [List.map_append]
          have hmap : (incrWs (tr.take n)).map
              (fun w' => if w' = w then (execB files res (tr.take n)).count + 1
                else (execB files res (tr.take n)).cur w') =
              (incrWs (tr.take n)).map (execB files res (tr.take n)).cur := by
            refine List.map_congr_left ?_
            intro a ha
            have haw : a ≠ w := fun h => hnotin_incr (h ▸ ha)
            simp [haw]
          rw [hmap, ih3, List.length_append]
          simp only [List.map_cons, List.map_nil, List.length_cons, List.length_nil,
            eq_self_iff_true, if_true]
          rw [List.range'_concat]
          simp [ih1, Nat.add_comm]
        · exact ih4
        · exact ih5
      | prog w =>
        rw [execB_append_one, bStep_prog]
        simp only [incrWs_append, progWs_append, insWs_append,
          incrWs_one_prog, progWs_one_prog, insWs_one_prog, List.append_nil]
        refine ⟨ih1, ?_, ih3, ih4, ih5⟩
        rw [List.map_append, ih2]
        simp
      | ins w =>
        rw [execB_append_one]
        rcases hres : res w with _ | err
        · simp only [bStep, hres]
          simp only [incrWs_append, progWs_append, insWs_append,
            incrWs_one_ins, progWs_one_ins, insWs_one_ins, List.append_nil]
          refine ⟨ih1, ih2, ih3, ?_, ?_⟩
          · rw [List.filter_append, List.map_append, ih4]
            simp [hres]
          · rw [List.filter_append, ih5]
            simp [hres]
        · simp only [bStep, hres]
          simp only [incrWs_append, progWs_append, insWs_append,
            incrWs_one_ins, progWs_one_ins, insWs_one_ins, List.append_nil]
          refine ⟨ih1, ih2, ih3, ?_, ?_⟩
          · rw [List.filter_append, List.map_append, ih4]
            simp [hres]
          · rw [List.filter_append, ih5]
            rw [List.foldl_append]
            simp [hres]

/-- The state invariant at the end of a complete valid trace. -/
lemma execB_full_spec (files : List String) (res : Nat → Option String) (cp : Bool)
    (C : Nat) (tr : List BEv) (hv : ValidTrace files.length C cp tr) :
    (execB files res tr).progLog =
      (progWs tr).map (fun w => ((execB files res tr).cur w, files.getD w "", res w)) ∧
    (incrWs tr).map (execB files res tr).cur = List.range' 1 (incrWs tr).length ∧
    (execB files res tr).succeeded =
      ((insWs tr).filter (fun w => (res w).isNone)).map (fun w => files.getD w "") ∧
    (execB files res tr).failed =
      ((insWs tr).filter (fun w => !(res w).isNone)).foldl
        (fun m w => goMapInsert m (files.getD w "") ((res w).getD "")) [] := by
  have h := execB_take_inv files res cp C tr hv tr.length
  rw [List.take_length] at h
  exact ⟨h.2.1, h.2.2.1, h.2.2.2.1, h.2.2.2.2⟩

lemma incrWs_perm_range {files : List String} {cp : Bool}
    {C : Nat} {tr : List BEv} (hv : ValidTrace files.length C cp tr) :
    (incrWs tr).Perm (List.range files.length) := by
  refine perm_range_of_counts (g := BEv.incr) (count_incrWs tr) ?_ (fun w => rfl) hv.1
  exact hv.2.2.1

lemma insWs_perm_range {files : List String} {cp : Bool}
    {C : Nat} {tr : List BEv} (hv : ValidTrace files.length C cp tr) :
    (insWs tr).Perm (List.range files.length) := by
  refine perm_range_of_counts (g := BEv.ins) (count_insWs tr) ?_ (fun w => rfl) hv.1
  exact hv.2.2.2.2.1

lemma progWs_perm_range {files : List String} {C : Nat} {tr : List BEv}
    (hv : ValidTrace files.length C true tr) :
    (progWs tr).Perm (List.range files.length) := by
  refine perm_range_of_counts (g := BEv.prog) (count_progWs tr) ?_ (fun w => rfl) hv.1
  intro w hw
  simpa using hv.2.2.2.1 w hw

lemma getD_eq_getElem_of_lt {l : List String} {i : Nat} (h : i < l.length) (d : String) :
    l.getD i d = l[i] := by
  simp [List.getD, List.getElem?_eq_getElem h]

lemma nodup_getD_inj {l : List String} (hnd : l.Nodup) {i j : Nat}
    (hi : i < l.length) (hj : j < l.length) (h : l.getD i "" = l.getD j "") : i = j := by
  rw [getD_eq_getElem_of_lt hi, getD_eq_getElem_of_lt hj] at h
  exact List.Nodup.getElem_inj_iff hnd |>.mp h

lemma filter_length_partition (p : Nat → Bool) (l : List Nat) :
    (l.filter p).length + (l.filter (fun w => !p w)).length = l.length := by
  induction l with
  | nil => rfl
  | cons a l ih => cases h : p a <;> simp [List.filter_cons, h] <;> omega

lemma foldl_goMapInsert_fresh {β : Type} (key : Nat → String) (val : Nat → β) :
    ∀ (ws : List Nat) (m : List (String × β)),
      (∀ w ∈ ws, ∀ q ∈ m, q.1 ≠ key w) → (ws.map key).Nodup →
      ws.foldl (fun m' w => goMapInsert m' (key w) (val w)) m =
        m ++ ws.map (fun w => (key w, val w)) := by
  intro ws
  induction ws with
  | nil => intro m _ _; simp
  | cons w ws ih =>
    intro m hfresh hnd
    have hnd' : (key w ∉ ws.map key) ∧ (ws.map key).Nodup := by
      rw [List.map_cons, List.nodup_cons] at hnd
      exact hnd
    have hkey : m.any (fun q => q.1 == key w) = false := by
      rw [List.any_eq_false]
      intro q hq
      simpa using hfresh w (by simp) q hq
    have hins : goMapInsert m (key w) (val w) = m ++ [(key w, val w)] := by
      simp [goMapInsert, hkey]
    have hfresh' : ∀ w' ∈ ws, ∀ q ∈ m ++ [(key w, val w)], q.1 ≠ key w' := by
      intro w' hw' q hq
      rcases List.mem_append.mp hq with hq | hq
      · exact hfresh w' (List.mem_cons_of_mem _ hw') q hq
      · have hq' : q = (key w, val w) := by simpa using hq
        subst hq'
        intro hc
        have hc' : key w = key w' := hc
        exact hnd'.1 (hc'.symm ▸ List.mem_map_of_mem key hw')
    rw [List.foldl_cons, hins, ih _ hfresh' hnd'.2]
    simp

lemma lookupF_pairs {β : Type} (key : Nat → String) (val : Nat → β) (k : String) :
    ∀ ws : List Nat,
      lookupF (ws.map (fun w => (key w, val w))) k =
        (ws.find? (fun w => key w == k)).map val := by
  intro ws
  induction ws with
  | nil => rfl
  | cons w ws ih =>
    rcases h : (key w == k) with _ | _
    · rw [List.map_cons]
      rw [lookupF, List.find?_cons_of_neg (p := fun q : String × β => q.1 == k) _ (by simpa using h),
        List.find?_cons_of_neg (p := fun w' => key w' == k) _ (by simpa using h)]
      exact ih
    · rw [List.map_cons, lookupF,
        List.find?_cons_of_pos (p := fun q : String × β => q.1 == k) _ (by simpa using h),
        List.find?_cons_of_pos (p := fun w' => key w' == k) _ h]
      rfl

lemma find?_eq_some_unique {p : Nat → Bool} {l : List Nat} {i : Nat}
    (hi : i ∈ l) (hpi : p i = true) (huniq : ∀ w ∈ l, p w = true → w = i) :
    l.find? p = some i := by
  induction l with
  | nil => cases hi
  | cons a l ih =>
    by_cases h : p a = true
    · have ha : a = i := huniq a (by simp) h
      rw [List.find?_cons_of_pos _ h, ha]
    · rw [List.find?_cons_of_neg _ h]
      have hi' : i ∈ l := by
        rcases List.mem_cons.mp hi with h' | h'
        · exact absurd (h' ▸ hpi) h
        · exact h'
      exact ih hi' (fun w hw hp => huniq w (List.mem_cons_of_mem _ hw) hp)

lemma count_map_eq_count {l : List Nat} {f : Nat → String} {i : Nat}
    (hinj : ∀ w ∈ l, f w = f i → w = i) :
    (l.map f).count (f i) = l.count i := by
  induction l with
  | nil => rfl
  | cons a l ih =>
    simp only [List.map_cons, List.count_cons]
    rw [ih (fun w hw => hinj w (List.mem_cons_of_mem _ hw))]
    by_cases h : a = i
    · subst h
      simp
    · have hf : ¬ (f a = f i) := fun hc => h (hinj a (by simp) hc)
      simp [h, hf]

lemma range_map_getD (l : List String) (d : String) :
    (List.range l.length).map (fun i => l.getD i d) = l := by
  induction l with
  | nil => rfl
  | cons a l ih =>
    rw [List.length_cons, List.range_succ_eq_map, List.map_cons, List.map_map]
    have hcomp : ((fun i => (a :: l).getD i d) ∘ (fun i => i + 1)) =
        fun i => l.getD i d := by
      funext i
      rfl
    rw [hcomp, ih]
    rfl

/-- Final result of a complete valid trace on pairwise-distinct inputs: the
succeeded list and failed map are images of the insert-order worker list, and
the two parts partition the workers. -/
lemma batch_final_shape (files : List String) (res : Nat → Option String)
    (cp : Bool) (C : Nat) (tr : List BEv) (hv : ValidTrace files.length C cp tr)
    (hnd : files.Nodup) :
    (execB files res tr).succeeded =
      ((insWs tr).filter (fun w => (res w).isNone)).map (fun w => files.getD w "") ∧
    (execB files res tr).failed =
      ((insWs tr).filter (fun w => !(res w).isNone)).map
        (fun w => (files.getD w "", (res w).getD "")) ∧
    ((insWs tr).filter (fun w => (res w).isNone)).length +
      ((insWs tr).filter (fun w => !(res w).isNone)).length = files.length := by
  obtain ⟨-, -, h4, h5⟩ := execB_full_spec files res cp C tr hv
  have hA : (insWs tr).Perm (List.range files.length) := insWs_perm_range hv
  have hAnd : (insWs tr).Nodup := hA.nodup_iff.mpr (List.nodup_range _)
  have hAmem : ∀ w ∈ insWs tr, w < files.length := fun w hw =>
    List.mem_range.mp (hA.mem_iff.mp hw)
  have hFnd : (((insWs tr).filter (fun w => !(res w).isNone)).map
      (fun w => files.getD w "")).Nodup := by
    refine List.Nodup.map_on ?_ ((List.filter_sublist _).nodup hAnd)
    intro x hx y hy hxy
    have hxA := List.mem_of_mem_filter hx
    have hyA := List.mem_of_mem_filter hy
    exact nodup_getD_inj hnd (hAmem x hxA) (hAmem y hyA) hxy
  refine ⟨h4, ?_, ?_⟩
  · rw [h5, foldl_goMapInsert_fresh (fun w => files.getD w "")
      (fun w => (res w).getD "") _ [] (by simp) hFnd]
    simp
  · rw [filter_length_partition (fun w => (res w).isNone) (insWs tr), hA.length_eq,
      List.length_range]

/-- Claim C1 (amended to pairwise-distinct inputs): for a batch over distinct
input items with any concurrency at least one, every complete run satisfies
len(succeeded) + len(failed) = total = number of inputs, and each input item is
counted exactly once in exactly one of the two collections, landing in failed
precisely when its processor returned an error. -/
theorem processBatch_partition (files : List String) (hnd : files.Nodup)
    (C : Nat) (hC : 1 ≤ C) (res : Nat → Option String) (cp : Bool)
    (tr : List BEv) (hv : ValidTrace files.length C cp tr) :
    (processBatchResult files res tr).succeeded.length +
      (processBatchResult files res tr).failed.length =
      (processBatchResult files res tr).total ∧
    (processBatchResult files res tr).total = files.length ∧
    (∀ i, (hi : i < files.length) →
      (res i = none →
        (processBatchResult files res tr).succeeded.count files[i] = 1 ∧
        lookupF (processBatchResult files res tr).failed files[i] = none) ∧
      (∀ e, res i = some e →
        (processBatchResult files res tr).succeeded.count files[i] = 0 ∧
        lookupF (processBatchResult files res tr).failed files[i] = some e)) := by
  obtain ⟨hS, hF, hpart⟩ := batch_final_shape files res cp C tr hv hnd
  have hA : (insWs tr).Perm (List.range files.length) := insWs_perm_range hv
  have hAnd : (insWs tr).Nodup := hA.nodup_iff.mpr (List.nodup_range _)
  have hAmem : ∀ w ∈ insWs tr, w < files.length := fun w hw =>
    List.mem_range.mp (hA.mem_iff.mp hw)
  simp only [processBatchResult]
  refine ⟨?_, trivial, ?_⟩
  · rw [hS, hF, List.length_map, List.length_map]
    exact hpart
  · intro i hi
    have hgetD : files.getD i "" = files[i] := getD_eq_getElem_of_lt hi ""
    have hiA : i ∈ insWs tr := hA.mem_iff.mpr (List.mem_range.mpr hi)
    have hcnt : ∀ b : List Nat, (∀ w ∈ b, w < files.length) →
        (b.map (fun w => files.getD w "")).count files[i] = b.count i := by
      intro b hb
      rw [← hgetD]
      exact count_map_eq_count (fun w hw heq => nodup_getD_inj hnd (hb w hw) hi heq)
    constructor
    · intro hres
      have hiS : i ∈ (insWs tr).filter (fun w => (res w).isNone) :=
        List.mem_filter.mpr ⟨hiA, by simp [hres]⟩
      constructor
      · rw [hS, hcnt _ (fun w hw => hAmem w (List.mem_of_mem_filter hw))]
        have hle := List.nodup_iff_count_le_one.mp
          ((List.filter_sublist (p := fun w => (res w).isNone) (insWs tr)).nodup hAnd) i
        have hge := List.count_pos_iff.mpr hiS
        omega
      · have hnone : ((insWs tr).filter (fun w => !(res w).isNone)).find?
            (fun w => files.getD w "" == files[i]) = none := by
          rw [List.find?_eq_none]
          intro w hw hbeq
          have hwsome : (res w).isSome = true := by
            have h2 := (List.mem_filter.mp hw).2
            simpa using h2
          have heq : files.getD w "" = files[i] := by simpa using hbeq
          have hwi : w = i := nodup_getD_inj hnd
            (hAmem w (List.mem_of_mem_filter hw)) hi (heq.trans hgetD.symm)
          rw [hwi, hres] at hwsome
          simp at hwsome
        rw [hF, lookupF_pairs (fun w => files.getD w "")
          (fun w => (res w).getD "") files[i], hnone]
        rfl
    · intro e hres
      have hiF : i ∈ (insWs tr).filter (fun w => !(res w).isNone) :=
        List.mem_filter.mpr ⟨hiA, by simp [hres]⟩
      constructor
      · rw [hS, hcnt _ (fun w hw => hAmem w (List.mem_of_mem_filter hw))]
        rw [List.count_eq_zero]
        intro hiS
        have h2 := (List.mem_filter.mp hiS).2
        rw [hres] at h2
        simp at h2
      · have hsome : ((insWs tr).filter (fun w => !(res w).isNone)).find?
            (fun w => files.getD w "" == files[i]) = some i := by
          refine find?_eq_some_unique hiF (by simpa using hgetD) ?_
          intro w hw hbeq
          have heq : files.getD w "" = files[i] := by simpa using hbeq
          exact nodup_getD_inj hnd (hAmem w (List.mem_of_mem_filter hw)) hi
            (heq.trans hgetD.symm)
        rw [hF, lookupF_pairs (fun w => files.getD w "")
          (fun w => (res w).getD "") files[i], hsome]
        simp [hres]

/-- Claim C2 (amended): with a non-nil onProgress and Quiet false, onProgress
fires exactly once per input item, and the delivered currentCompletedCount
values are exactly the counter values 1..N, each exactly once; but because the
callback runs outside the critical section, their delivery order is only a
permutation of 1..N, not necessarily increasing. -/
theorem processBatch_progress_amended (files : List String) (C : Nat) (hC : 1 ≤ C)
    (res : Nat → Option String) (tr : List BEv)
    (hv : ValidTrace files.length C true tr) :
    ((batchProgLog files res tr).map (fun q => q.1)).Perm
      (List.range' 1 files.length) ∧
    ((batchProgLog files res tr).map (fun q => q.2.1)).Perm files := by
  obtain ⟨h2, h3, -, -⟩ := execB_full_spec files res true C tr hv
  have hprog : (progWs tr).Perm (List.range files.length) := progWs_perm_range hv
  have hincr : (incrWs tr).Perm (List.range files.length) := incrWs_perm_range hv
  have hpi : (progWs tr).Perm (incrWs tr) := hprog.trans hincr.symm
  have hlen : (incrWs tr).length = files.length := by
    rw [hincr.length_eq, List.length_range]
  constructor
  · have heq : (batchProgLog files res tr).map (fun q => q.1) =
        (progWs tr).map (execB files res tr).cur := by
      rw [batchProgLog, h2, List.map_map]
      rfl
    rw [heq]
    have hmap := hpi.map (execB files res tr).cur
    rw [h3, hlen] at hmap
    exact hmap
  · have heq : (batchProgLog files res tr).map (fun q => q.2.1) =
        (progWs tr).map (fun w => files.getD w "") := by
      rw [batchProgLog, h2, List.map_map]
      rfl
    rw [heq]
    have hmap := hprog.map (fun w => files.getD w "")
    rw [range_map_getD files ""] at hmap
    exact hmap

/-- Claim C3 (amended): the executor never observes cancellation itself: every
complete run over distinct inputs still satisfies succeeded + failed = total,
and when any item's processor reports an error (as a cancellation-honoring
processor does for items dispatched after cancellation), not all items
succeed. -/
theorem processBatch_cancellation_amended (files : List String) (hnd : files.Nodup)
    (C : Nat) (hC : 1 ≤ C) (res : Nat → Option String) (cp : Bool) (tr : List BEv)
    (hv : ValidTrace files.length C cp tr) :
    (processBatchResult files res tr).succeeded.length +
      (processBatchResult files res tr).failed.length =
      (processBatchResult files res tr).total ∧
    (∀ i, i < files.length → res i ≠ none →
      (processBatchResult files res tr).succeeded.length < files.length) := by
  obtain ⟨hS, hF, hpart⟩ := batch_final_shape files res cp C tr hv hnd
  have hA : (insWs tr).Perm (List.range files.length) := insWs_perm_range hv
  simp only [processBatchResult]
  constructor
  · rw [hS, hF, List.length_map, List.length_map]
    exact hpart
  · intro i hi hres
    have hiA : i ∈ insWs tr := hA.mem_iff.mpr (List.mem_range.mpr hi)
    have hiF : i ∈ (insWs tr).filter (fun w => !(res w).isNone) := by
      refine List.mem_filter.mpr ⟨hiA, ?_⟩
      rcases h : res i with _ | e
      · exact absurd h hres
      · simp
    have hFpos : 0 < ((insWs tr).filter (fun w => !(res w).isNone)).length :=
      List.length_pos_of_mem hiF
    rw [hS, List.length_map]
    omega

/-! ## Concrete batch runs used to refute and witness the batch claims -/

/-- Sequential two-worker trace with no progress callback. -/
def trSeq2 : List BEv :=
  [.disp 0, .incr 0, .ins 0, .rel 0, .disp 1, .incr 1, .ins 1, .rel 1]

/-- Sequential two-worker trace with progress callbacks. -/
def trSeq2p : List BEv :=
  [.disp 0, .incr 0, .prog 0, .ins 0, .rel 0, .disp 1, .incr 1, .prog 1, .ins 1, .rel 1]

/-- Concurrency-2 trace whose two progress callbacks are delivered in the
opposite order of their counter values. -/
def trOoo : List BEv :=
  [.disp 0, .disp 1, .incr 0, .incr 1, .prog 1, .prog 0, .ins 1, .ins 0, .rel 1, .rel 0]

/-- Sequential five-worker trace with progress callbacks. -/
def trSeq5 : List BEv :=
  [.disp 0, .incr 0, .prog 0, .ins 0, .rel 0,
   .disp 1, .incr 1, .prog 1, .ins 1, .rel 1,
   .disp 2, .incr 2, .prog 2, .ins 2, .rel 2,
   .disp 3, .incr 3, .prog 3, .ins 3, .rel 3,
   .disp 4, .incr 4, .prog 4, .ins 4, .rel 4]

/-- A processor that always succeeds. -/
def resNone : Nat → Option String := fun _ => none

/-- A processor that always fails. -/
def resBoom : Nat → Option String := fun _ => some "boom"

/-- A processor honoring a cancellation that fires after the second item:
items dispatched afterwards return the context error. -/
def resCancel : Nat → Option String :=
  fun w => if w < 2 then none else some "context canceled"

/-- Claim C1 counterexample: with the duplicated input list ["a", "a"] and an
always-failing processor, the failed map holds a single entry, so
len(succeeded) + len(failed) = 1 ≠ 2 = total on a real sequential run. -/
theorem processBatch_partition_cex :
    ValidTrace (["a", "a"].length) 1 false trSeq2 ∧
    ¬ ((processBatchResult ["a", "a"] resBoom trSeq2).succeeded.length +
        (processBatchResult ["a", "a"] resBoom trSeq2).failed.length =
        (processBatchResult ["a", "a"] resBoom trSeq2).total) := by
  constructor
  · refine ⟨?_, ?_, ?_, ?_, ?_, ?_, ?_, ?_, ?_⟩ <;> decide
  · decide

/-- Claim C1 witness: the partition theorem applied to a concrete sequential
run over two distinct items. -/
theorem processBatch_partition_witness :
    ["f1", "f2"].Nodup ∧ 1 ≤ 1 ∧ ValidTrace (["f1", "f2"].length) 1 false trSeq2 ∧
    ((processBatchResult ["f1", "f2"] resBoom trSeq2).succeeded.length +
      (processBatchResult ["f1", "f2"] resBoom trSeq2).failed.length =
      (processBatchResult ["f1", "f2"] resBoom trSeq2).total ∧
    (processBatchResult ["f1", "f2"] resBoom trSeq2).total = ["f1", "f2"].length ∧
    (∀ i, (hi : i < ["f1", "f2"].length) →
      (resBoom i = none →
        (processBatchResult ["f1", "f2"] resBoom trSeq2).succeeded.count
          (["f1", "f2"][i]) = 1 ∧
        lookupF (processBatchResult ["f1", "f2"] resBoom trSeq2).failed
          (["f1", "f2"][i]) = none) ∧
      (∀ e, resBoom i = some e →
        (processBatchResult ["f1", "f2"] resBoom trSeq2).succeeded.count
          (["f1", "f2"][i]) = 0 ∧
        lookupF (processBatchResult ["f1", "f2"] resBoom trSeq2).failed
          (["f1", "f2"][i]) = some e))) := by
  have hv : ValidTrace (["f1", "f2"].length) 1 false trSeq2 := by
    refine ⟨?_, ?_, ?_, ?_, ?_, ?_, ?_, ?_, ?_⟩ <;> decide
  exact ⟨by decide, by decide, hv,
    processBatch_partition ["f1", "f2"] (by decide) 1 (by decide) resBoom false trSeq2 hv⟩

/-- Claim C2 counterexample: a real concurrency-2 interleaving delivers the
progress counts as [2, 1], which is not the strictly increasing, gap-free
sequence 1..N. -/
theorem processBatch_progress_cex :
    ValidTrace (["f1", "f2"].length) 2 true trOoo ∧
    (batchProgLog ["f1", "f2"] resNone trOoo).map (fun q => q.1) = [2, 1] ∧
    (batchProgLog ["f1", "f2"] resNone trOoo).map (fun q => q.1) ≠
      List.range' 1 (["f1", "f2"].length) := by
  refine ⟨?_, by decide, by decide⟩
  refine ⟨?_, ?_, ?_, ?_, ?_, ?_, ?_, ?_, ?_⟩ <;> decide

/-- Claim C2 witness: the amended progress theorem applied to a concrete
sequential run over two items. -/
theorem processBatch_progress_witness :
    1 ≤ 1 ∧ ValidTrace (["f1", "f2"].length) 1 true trSeq2p ∧
    (((batchProgLog ["f1", "f2"] resNone trSeq2p).map (fun q => q.1)).Perm
      (List.range' 1 (["f1", "f2"].length)) ∧
    ((batchProgLog ["f1", "f2"] resNone trSeq2p).map (fun q => q.2.1)).Perm
      ["f1", "f2"]) := by
  have hv : ValidTrace (["f1", "f2"].length) 1 true trSeq2p := by
    refine ⟨?_, ?_, ?_, ?_, ?_, ?_, ?_, ?_, ?_⟩ <;> decide
  exact ⟨by decide, hv,
    processBatch_progress_amended ["f1", "f2"] 1 (by decide) resNone trSeq2p hv⟩

/-- Claim C3 counterexample: in the 5-item, concurrency-1 scenario with a
cancellation-honoring processor that fails every item after the second, the
executor still dispatches and records all five items: succeeded + failed = 5,
refuting succeeded + failed < 5 (while indeed not all five succeed). -/
theorem processBatch_cancellation_cex :
    ValidTrace (["f1", "f2", "f3", "f4", "f5"].length) 1 true trSeq5 ∧
    (processBatchResult ["f1", "f2", "f3", "f4", "f5"] resCancel trSeq5).succeeded.length +
      (processBatchResult ["f1", "f2", "f3", "f4", "f5"] resCancel trSeq5).failed.length = 5 ∧
    ¬ ((processBatchResult ["f1", "f2", "f3", "f4", "f5"] resCancel trSeq5).succeeded.length +
      (processBatchResult ["f1", "f2", "f3", "f4", "f5"] resCancel trSeq5).failed.length < 5) ∧
    (processBatchResult ["f1", "f2", "f3", "f4", "f5"] resCancel trSeq5).succeeded.length < 5 := by
  refine ⟨?_, by decide, by decide, by decide⟩
  refine ⟨?_, ?_, ?_, ?_, ?_, ?_, ?_, ?_, ?_⟩ <;> decide

/-- Claim C3 witness: the amended cancellation theorem applied to the concrete
5-item sequential run with a cancellation-honoring processor. -/
theorem processBatch_cancellation_witness :
    ["f1", "f2", "f3", "f4", "f5"].Nodup ∧ 1 ≤ 1 ∧
    ValidTrace (["f1", "f2", "f3", "f4", "f5"].length) 1 true trSeq5 ∧
    ((processBatchResult ["f1", "f2", "f3", "f4", "f5"] resCancel trSeq5).succeeded.length +
      (processBatchResult ["f1", "f2", "f3", "f4", "f5"] resCancel trSeq5).failed.length =
      (processBatchResult ["f1", "f2", "f3", "f4", "f5"] resCancel trSeq5).total ∧
    (∀ i, i < ["f1", "f2", "f3", "f4", "f5"].length → resCancel i ≠ none →
      (processBatchResult ["f1", "f2", "f3", "f4", "f5"] resCancel trSeq5).succeeded.length <
        ["f1", "f2", "f3", "f4", "f5"].length)) := by
  have hv : ValidTrace (["f1", "f2", "f3", "f4", "f5"].length) 1 true trSeq5 := by
    refine ⟨?_, ?_, ?_, ?_, ?_, ?_, ?_, ?_, ?_⟩ <;> decide
  exact ⟨by decide, by decide, hv,
    processBatch_cancellation_amended ["f1", "f2", "f3", "f4", "f5"] (by decide) 1
      (by decide) resCancel true trSeq5 hv⟩

/-! ## Resolver claim theorems -/

lemma find?_append_of_none {α : Type} {p : α → Bool} :
    ∀ (l₁ l₂ : List α), (∀ x ∈ l₁, p x = false) →
      (l₁ ++ l₂).find? p = l₂.find? p := by
  intro l₁
  induction l₁ with
  | nil => intro l₂ _; rfl
  | cons a l ih =>
    intro l₂ h
    rw [List.cons_append, List.find?_cons_of_neg _ (by simp [h a (by simp)]),
      ih l₂ (fun x hx => h x (List.mem_cons_of_mem _ hx))]

/-- Claim C4: a reference already in canonical shape for its kind is returned
unchanged with zero remote listing calls, for all three kinds and any remote
environment — the identifier need not exist remotely. -/
theorem resolve_canonical_unchanged (env : Env) (ref store : String) :
    (hasPrefixGo ref storeResourcePfx = true →
      resolveStoreName env ref = (.ok ref, 0)) ∧
    (hasPrefixGo ref fileResourcePfx = true →
      resolveFileName env ref = (.ok ref, 0)) ∧
    (containsGo ref documentResourcePfx = true →
      resolveDocumentName env store ref = (.ok ref, 0)) := by
  refine ⟨?_, ?_, ?_⟩ <;> intro h <;>
    simp [resolveStoreName, resolveFileName, resolveDocumentName, h]

/-- A small remote environment with existing resources, used by witnesses. -/
def env0 : Env :=
  { storePages := [[⟨"fileSearchStores/s1", "alpha"⟩],
                   [⟨"fileSearchStores/s2", "beta"⟩, ⟨"fileSearchStores/s3", "beta"⟩]],
    storesErr := none,
    filePages := [[⟨"files/f1", "report"⟩]],
    filesErr := none,
    docPages := fun sid =>
      if sid == "fileSearchStores/s1" then
        [[⟨"fileSearchStores/s1/documents/d1", "delta"⟩,
          ⟨"fileSearchStores/s1/documents/d2", "beta"⟩]]
      else [],
    docsErr := fun _ => none,
    modelPages := [[⟨"models/gemini-2.5-flash"⟩]],
    modelsErr := none,
    clientErr := none }

/-- Claim C4 witness: canonical references of each kind pass through env0
unchanged with zero listing calls, although none of them exists in env0. -/
theorem resolve_canonical_unchanged_witness :
    hasPrefixGo "fileSearchStores/zzz" storeResourcePfx = true ∧
    hasPrefixGo "files/zzz" fileResourcePfx = true ∧
    containsGo "fileSearchStores/s9/documents/zzz" documentResourcePfx = true ∧
    resolveStoreName env0 "fileSearchStores/zzz" = (.ok "fileSearchStores/zzz", 0) ∧
    resolveFileName env0 "files/zzz" = (.ok "files/zzz", 0) ∧
    resolveDocumentName env0 "alpha" "fileSearchStores/s9/documents/zzz" =
      (.ok "fileSearchStores/s9/documents/zzz", 0) :=
  ⟨by decide, by decide, by decide,
   (resolve_canonical_unchanged env0 "fileSearchStores/zzz" "alpha").1 (by decide),
   (resolve_canonical_unchanged env0 "files/zzz" "alpha").2.1 (by decide),
   (resolve_canonical_unchanged env0 "fileSearchStores/s9/documents/zzz" "alpha").2.2
     (by decide)⟩

/-- Claim C5: a non-canonical reference triggers exactly one fully paginated
listing (scoped to the resolved store for the document kind); the first entry
in listing order whose display name equals the reference wins, and exhausting
the listing without a match yields the not-found error naming the kind and the
original reference. -/
theorem resolve_scan_first_match (env : Env) (ref sid : String)
    (hnc : hasPrefixGo ref storeResourcePfx = false)
    (hok : env.storesErr = none)
    (hdnc : containsGo ref documentResourcePfx = false)
    (hsid : hasPrefixGo sid storeResourcePfx = true)
    (hdok : env.docsErr sid = none) :
    (∀ pre s post, env.storePages.flatten = pre ++ s :: post →
      s.displayName = ref → (∀ t ∈ pre, t.displayName ≠ ref) →
      resolveStoreName env ref = (.ok s.name, 1)) ∧
    ((∀ s ∈ env.storePages.flatten, s.displayName ≠ ref) →
      resolveStoreName env ref = (.error ("store not found: " ++ ref), 1)) ∧
    (∀ pre d post, (env.docPages sid).flatten = pre ++ d :: post →
      d.displayName = ref → (∀ t ∈ pre, t.displayName ≠ ref) →
      resolveDocumentName env sid ref = (.ok d.name, 1)) ∧
    ((∀ d ∈ (env.docPages sid).flatten, d.displayName ≠ ref) →
      resolveDocumentName env sid ref =
        (.error ("document not found in store " ++ sid ++ ": " ++ ref), 1)) := by
  have hls : listStores env = .ok env.storePages.flatten := by
    simp [listStores, hok]
  have hld : listDocuments env sid = .ok (env.docPages sid).flatten := by
    simp [listDocuments, hdok]
  have hres0 : resolveStoreName env sid = (.ok sid, 0) := by
    simp [resolveStoreName, hsid]
  refine ⟨?_, ?_, ?_, ?_⟩
  · intro pre s post hsplit hdisp hpre
    have hfind : env.storePages.flatten.find? (fun t => t.displayName == ref) = some s := by
      rw [hsplit, find?_append_of_none _ _ (fun t ht => by simp [hpre t ht]),
        List.find?_cons_of_pos _ (by simp [hdisp])]
    simp [resolveStoreName, hnc, hls, hfind]
  · intro hall
    have hfind : env.storePages.flatten.find? (fun t => t.displayName == ref) = none :=
      List.find?_eq_none.mpr (fun x hx => by simp [hall x hx])
    simp [resolveStoreName, hnc, hls, hfind]
  · intro pre d post hsplit hdisp hpre
    have hfind : (env.docPages sid).flatten.find? (fun t => t.displayName == ref) =
        some d := by
      rw [hsplit, find?_append_of_none _ _ (fun t ht => by simp [hpre t ht]),
        List.find?_cons_of_pos _ (by simp [hdisp])]
    simp [resolveDocumentName, hdnc, hres0, hld, hfind]
  · intro hall
    have hfind : (env.docPages sid).flatten.find? (fun t => t.displayName == ref) =
        none :=
      List.find?_eq_none.mpr (fun x hx => by simp [hall x hx])
    simp [resolveDocumentName, hdnc, hres0, hld, hfind]

/-- Claim C5 witness: in env0, the friendly name "beta" resolves to the first
of two stores sharing that display name after one listing call; an absent name
fails with the not-found error; and document resolution scoped to store s1
finds the first matching document. -/
theorem resolve_scan_first_match_witness :
    hasPrefixGo "beta" storeResourcePfx = false ∧
    env0.storesErr = none ∧
    resolveStoreName env0 "beta" = (.ok "fileSearchStores/s2", 1) ∧
    resolveStoreName env0 "nope" = (.error ("store not found: " ++ "nope"), 1) ∧
    resolveDocumentName env0 "fileSearchStores/s1" "beta" =
      (.ok "fileSearchStores/s1/documents/d2", 1) := by
  refine ⟨by decide, rfl, ?_, ?_, ?_⟩
  · exact (resolve_scan_first_match env0 "beta" "fileSearchStores/s1" (by decide) rfl
      (by decide) (by decide) rfl).1
      [⟨"fileSearchStores/s1", "alpha"⟩] ⟨"fileSearchStores/s2", "beta"⟩
      [⟨"fileSearchStores/s3", "beta"⟩] (by decide) rfl (by decide)
  · exact (resolve_scan_first_match env0 "nope" "fileSearchStores/s1" (by decide) rfl
      (by decide) (by decide) rfl).2.1 (by decide)
  · exact (resolve_scan_first_match env0 "beta" "fileSearchStores/s1" (by decide) rfl
      (by decide) (by decide) rfl).2.2.1
      [⟨"fileSearchStores/s1/documents/d1", "delta"⟩]
      ⟨"fileSearchStores/s1/documents/d2", "beta"⟩ [] (by decide) rfl (by decide)

/-! ## Cache claim theorems -/

lemma lookupF_map_overwrite {β : Type} (k : String) (v : β) :
    ∀ m : List (String × β), m.any (fun q => q.1 == k) = true →
      lookupF (m.map (fun q => if q.1 == k then (k, v) else q)) k = some v := by
  intro m
  induction m with
  | nil => intro h; simp at h
  | cons q t ih =>
    intro h
    rcases hq : (q.1 == k) with _ | _
    · have ht : t.any (fun q => q.1 == k) = true := by
        simp only [List.any_cons, hq, Bool.false_or] at h
        exact h
      rw [List.map_cons, if_neg (by simp [hq])]
      rw [lookupF, List.find?_cons_of_neg _ (by simp [hq])]
      exact ih ht
    · rw [List.map_cons, if_pos (by simp [hq])]
      rw [lookupF, List.find?_cons_of_pos _ (by simp)]
      rfl

lemma lookupF_append_right {β : Type} (k : String) (v : β) :
    ∀ m : List (String × β), m.any (fun q => q.1 == k) = false →
      lookupF (m ++ [(k, v)]) k = some v := by
  intro m
  induction m with
  | nil =>
    intro _
    rw [List.nil_append, lookupF, List.find?_cons_of_pos _ (by simp)]
    rfl
  | cons q t ih =>
    intro h
    simp only [List.any_cons, Bool.or_eq_false_iff] at h
    rw [List.cons_append, lookupF, List.find?_cons_of_neg _ (by simp [h.1])]
    exact ih h.2

/-- Setting key `k` makes a lookup of `k` return the fresh entry, whether or
not the key was present. -/
lemma lookupF_goMapInsert_self {β : Type} (m : List (String × β)) (k : String)
    (v : β) : lookupF (goMapInsert m k v) k = some v := by
  rcases h : m.any (fun q => q.1 == k) with _ | _
  · rw [goMapInsert, if_neg (by simp [h])]
    exact lookupF_append_right k v m h
  · rw [goMapInsert, if_pos (by simp [h])]
    exact lookupF_map_overwrite k v m h

/-- Claim C7: set-then-get within the TTL returns the stored values; a
never-set key and an expired entry are indistinguishable at get (both give
(nil, false)); and a second set overwrites the entry and resets its expiry. -/
theorem cache_ttl_semantics (c : Cache) (k : String) (v : List String)
    (t t' : Int) :
    (t' ≤ t + c.ttl → cacheGet (cacheSet c t k v) t' k = (some v, true)) ∧
    (lookupF c.entries k = none → cacheGet c t' k = (none, false)) ∧
    (t + c.ttl < t' → cacheGet (cacheSet c t k v) t' k = (none, false)) ∧
    (∀ v₁ t₁, cacheGet (cacheSet (cacheSet c t₁ k v₁) t k v) t' k =
      cacheGet (cacheSet c t k v) t' k) := by
  have hself : lookupF (cacheSet c t k v).entries k = some ⟨v, t + c.ttl⟩ :=
    lookupF_goMapInsert_self _ _ _
  refine ⟨?_, ?_, ?_, ?_⟩
  · intro h
    rw [cacheGet, hself]
    simp only
    rw [if_neg (by simp; omega)]
  · intro h
    rw [cacheGet, h]
  · intro h
    rw [cacheGet, hself]
    simp only
    rw [if_pos (by simpa using h)]
  · intro v₁ t₁
    have hself₂ : lookupF (cacheSet (cacheSet c t₁ k v₁) t k v).entries k =
        some ⟨v, t + c.ttl⟩ := lookupF_goMapInsert_self _ _ _
    rw [cacheGet, cacheGet, hself, hself₂]

/-- Claim C7 witness: concrete set/get runs on a freshly constructed cache. -/
theorem cache_ttl_semantics_witness :
    ((0 : Int) ≤ 0 + (newCache 0).ttl ∧
     cacheGet (cacheSet (newCache 0) 0 "stores" ["a"]) 0 "stores" =
       (some ["a"], true)) ∧
    (lookupF (newCache 0).entries "stores" = none ∧
     cacheGet (newCache 0) 7 "stores" = (none, false)) ∧
    ((0 : Int) + (newCache 0).ttl < 300000000001 ∧
     cacheGet (cacheSet (newCache 0) 0 "stores" ["a"]) 300000000001 "stores" =
       (none, false)) ∧
    cacheGet (cacheSet (cacheSet (newCache 0) (-5) "stores" ["old"]) 0 "stores" ["a"])
        0 "stores" =
      cacheGet (cacheSet (newCache 0) 0 "stores" ["a"]) 0 "stores" :=
  ⟨⟨by decide, (cache_ttl_semantics (newCache 0) "stores" ["a"] 0 0).1 (by decide)⟩,
   ⟨rfl, (cache_ttl_semantics (newCache 0) "stores" ["a"] 0 7).2.1 rfl⟩,
   ⟨by decide,
    (cache_ttl_semantics (newCache 0) "stores" ["a"] 0 300000000001).2.2.1 (by decide)⟩,
   (cache_ttl_semantics (newCache 0) "stores" ["a"] 0 0).2.2.2 ["old"] (-5)⟩

/-- Claim C8: a construction-time TTL of zero or less is coerced to exactly
five minutes, which is strictly positive. -/
theorem newCache_coerces_ttl (ttl : Int) (h : ttl ≤ 0) :
    (newCache ttl).ttl = 5 * minuteNs ∧ 0 < (newCache ttl).ttl := by
  constructor
  · simp [newCache, h]
  · simp only [newCache, if_pos h]
    decide

/-- Claim C8 witness: the coercion at TTL 0 and the resulting positivity. -/
theorem newCache_coerces_ttl_witness :
    (0 : Int) ≤ 0 ∧ (newCache 0).ttl = 5 * minuteNs ∧ 0 < (newCache 0).ttl :=
  ⟨by decide, (newCache_coerces_ttl 0 (by decide)).1, (newCache_coerces_ttl 0 (by decide)).2⟩

/-! ## Operation shape-check claim theorem -/

/-- Claim C9: an operation identifier without the collection prefix is
rejected with the must-start-with error, and one with the prefix but without
the operations infix with the must-contain error, both with zero remote poll
calls. -/
theorem getOperation_shape_errors (env : OpEnv) (name ty : String) :
    (hasPrefixGo name storeResourcePfx = false →
      getOperation env name ty =
        (.error "invalid operation name: must start with 'fileSearchStores/'", 0)) ∧
    (hasPrefixGo name storeResourcePfx = true →
      containsGo name operationResourcePfx = false →
      getOperation env name ty =
        (.error "invalid operation name: must contain '/operations/'", 0)) := by
  constructor
  · intro h
    simp only [getOperation, h, Bool.not_false, if_true]
    rfl
  · intro h1 h2
    simp only [getOperation, h1, h2, Bool.not_true, Bool.not_false, if_false, if_true]
    rfl

/-- Claim C9 witness: the two malformed identifiers from the spec scenarios
are rejected locally, before any poll call, whatever the remote would say. -/
theorem getOperation_shape_errors_witness :
    hasPrefixGo "abc123/operations/op456" storeResourcePfx = false ∧
    getOperation ⟨.error "unreached", .error "unreached"⟩ "abc123/operations/op456" "" =
      (.error "invalid operation name: must start with 'fileSearchStores/'", 0) ∧
    hasPrefixGo "fileSearchStores/abc123/op456" storeResourcePfx = true ∧
    containsGo "fileSearchStores/abc123/op456" operationResourcePfx = false ∧
    getOperation ⟨.error "unreached", .error "unreached"⟩ "fileSearchStores/abc123/op456" "" =
      (.error "invalid operation name: must contain '/operations/'", 0) :=
  ⟨by decide,
   (getOperation_shape_errors ⟨.error "unreached", .error "unreached"⟩
     "abc123/operations/op456" "").1 (by decide),
   by decide, by decide,
   (getOperation_shape_errors ⟨.error "unreached", .error "unreached"⟩
     "fileSearchStores/abc123/op456" "").2 (by decide) (by decide)⟩

/-! ## Completer claim theorems -/

/-- Claim C6 (amended): when completion is disabled or, on a cache miss, the
client construction or the backing remote lookup fails, the store, file and
document lookups return the empty list and no error; the model-name lookup
returns the static default model list instead of an empty one. -/
theorem completer_graceful_degradation (c : Completer) (env : Env) (now : Int)
    (ref : String) :
    (c.enabled = false →
      (getStoreNames c env now).1 = [] ∧
      (getFileNames c env now).1 = [] ∧
      (getDocumentNames c env now ref).1 = [] ∧
      (getModelNames c env now).1 = getModelList) ∧
    (∀ e, env.clientErr = some e →
      (cacheGet c.cache now "stores" = (none, false) →
        (getStoreNames c env now).1 = []) ∧
      (cacheGet c.cache now "files" = (none, false) →
        (getFileNames c env now).1 = []) ∧
      (cacheGet c.cache now ("docs:" ++ ref) = (none, false) →
        (getDocumentNames c env now ref).1 = []) ∧
      (cacheGet c.cache now "models" = (none, false) →
        (getModelNames c env now).1 = getModelList)) ∧
    (∀ e, env.storesErr = some e → cacheGet c.cache now "stores" = (none, false) →
      (getStoreNames c env now).1 = []) ∧
    (∀ e, env.filesErr = some e → cacheGet c.cache now "files" = (none, false) →
      (getFileNames c env now).1 = []) ∧
    (∀ e, (resolveStoreName env ref).1 = .error e →
      cacheGet c.cache now ("docs:" ++ ref) = (none, false) →
      (getDocumentNames c env now ref).1 = []) := by
  refine ⟨?_, ?_, ?_, ?_, ?_⟩
  · intro hdis
    refine ⟨?_, ?_, ?_, ?_⟩ <;>
      simp [getStoreNames, getFileNames, getDocumentNames, getModelNames, hdis]
  · intro e hce
    refine ⟨?_, ?_, ?_, ?_⟩ <;> intro hmiss <;> by_cases hen : c.enabled
    · simp [getStoreNames, hen, hmiss, hce]
    · simp [getStoreNames, hen]
    · simp [getFileNames, hen, hmiss, hce]
    · simp [getFileNames, hen]
    · by_cases href : ref = ""
      · simp [getDocumentNames, href]
      · simp [getDocumentNames, hen, href, hmiss, hce]
    · simp [getDocumentNames, hen]
    · simp [getModelNames, hen, hmiss, hce]
    · simp [getModelNames, hen]
  · intro e hse hmiss
    by_cases hen : c.enabled
    · rcases hce : env.clientErr with _ | e₂
      · have hgw : gatewayStoreNames env = .error e := by
          simp [gatewayStoreNames, listStores, hse]
        simp [getStoreNames, hen, hmiss, hce, hgw]
      · simp [getStoreNames, hen, hmiss, hce]
    · simp [getStoreNames, hen]
  · intro e hfe hmiss
    by_cases hen : c.enabled
    · rcases hce : env.clientErr with _ | e₂
      · have hgw : gatewayFileNames env = .error e := by
          simp [gatewayFileNames, listFiles, hfe]
        simp [getFileNames, hen, hmiss, hce, hgw]
      · simp [getFileNames, hen, hmiss, hce]
    · simp [getFileNames, hen]
  · intro e hres hmiss
    by_cases hen : c.enabled
    · by_cases href : ref = ""
      · simp [getDocumentNames, href]
      · rcases hce : env.clientErr with _ | e₂
        · simp [getDocumentNames, hen, href, hmiss, hce, hres]
        · simp [getDocumentNames, hen, href, hmiss, hce]
    · simp [getDocumentNames, hen]

/-- A remote environment in which everything fails. -/
def envFail : Env :=
  { storePages := [], storesErr := some "network unreachable",
    filePages := [], filesErr := some "network unreachable",
    docPages := fun _ => [], docsErr := fun _ => some "network unreachable",
    modelPages := [], modelsErr := some "network unreachable",
    clientErr := some "GEMINI_API_KEY not set" }

/-- A completer with lookups administratively disabled. -/
def completerOff : Completer := { cache := newCache 0, enabled := false }

/-- A completer with lookups enabled and an empty, fresh cache. -/
def completerOn : Completer := { cache := newCache 0, enabled := true }

/-- Claim C6 counterexample: with lookups disabled, the model-name lookup
returns the five static defaults, not an empty sequence, falsifying the claim
that every lookup method returns an empty sequence. -/
theorem completer_graceful_degradation_cex :
    completerOff.enabled = false ∧
    (getModelNames completerOff envFail 0).1 = getModelList ∧
    (getModelNames completerOff envFail 0).1 ≠ [] :=
  ⟨rfl, rfl, by decide⟩

/-- Claim C6 witness: the degradation theorem applied to the disabled
completer and to an enabled completer over the failing remote. -/
theorem completer_graceful_degradation_witness :
    completerOff.enabled = false ∧
    ((getStoreNames completerOff envFail 0).1 = [] ∧
     (getFileNames completerOff envFail 0).1 = [] ∧
     (getDocumentNames completerOff envFail 0 "alpha").1 = [] ∧
     (getModelNames completerOff envFail 0).1 = getModelList) ∧
    envFail.clientErr = some "GEMINI_API_KEY not set" ∧
    cacheGet completerOn.cache 0 "stores" = (none, false) ∧
    (getStoreNames completerOn envFail 0).1 = [] :=
  ⟨rfl,
   (completer_graceful_degradation completerOff envFail 0 "alpha").1 rfl,
   rfl, rfl,
   ((completer_graceful_degradation completerOn envFail 0 "alpha").2.1
     "GEMINI_API_KEY not set" rfl).1 rfl⟩

/-- Claim C10: the model-name lookup always falls back to the fixed static
default list — when disabled, when (on a cache miss) the client cannot be
created or the model listing fails, or when the listing yields no names — and
on a cache miss its result is never the empty list. -/
theorem getModelNames_default_fallback (c : Completer) (env : Env) (now : Int) :
    (c.enabled = false → (getModelNames c env now).1 = getModelList) ∧
    (cacheGet c.cache now "models" = (none, false) →
      (∀ e, env.clientErr = some e → (getModelNames c env now).1 = getModelList) ∧
      (∀ e, env.modelsErr = some e → (getModelNames c env now).1 = getModelList) ∧
      (env.clientErr = none → env.modelPages.flatten = [] →
        (getModelNames c env now).1 = getModelList) ∧
      (getModelNames c env now).1 ≠ []) ∧
    getModelList ≠ [] := by
  refine ⟨?_, ?_, by decide⟩
  · intro hdis
    simp [getModelNames, hdis]
  · intro hmiss
    refine ⟨?_, ?_, ?_, ?_⟩
    · intro e hce
      by_cases hen : c.enabled
      · simp [getModelNames, hen, hmiss, hce]
      · simp [getModelNames, hen]
    · intro e hme
      by_cases hen : c.enabled
      · rcases hce : env.clientErr with _ | e₂
        · have hlm : listModels env = .error e := by simp [listModels, hme]
          simp [getModelNames, hen, hmiss, hce, hlm]
        · simp [getModelNames, hen, hmiss, hce]
      · simp [getModelNames, hen]
    · intro hce hempty
      by_cases hen : c.enabled
      · rcases hme : env.modelsErr with _ | e₂
        · have hlm : listModels env = .ok [] := by simp [listModels, hme, hempty]
          simp [getModelNames, hen, hmiss, hce, hlm]
        · have hlm : listModels env = .error e₂ := by simp [listModels, hme]
          simp [getModelNames, hen, hmiss, hce, hlm]
      · simp [getModelNames, hen]
    · by_cases hen : c.enabled
      · rcases hce : env.clientErr with _ | e₂
        · rcases hlm : listModels env with e₃ | ms
          · simp [getModelNames, hen, hmiss, hce, hlm]
            decide
          · rcases hmap : ms.map (fun m => trimPrefixGo m.name "models/") with _ | ⟨a, l⟩
            · simp [getModelNames, hen, hmiss, hce, hlm, hmap]
              decide
            · simp [getModelNames, hen, hmiss, hce, hlm, hmap]
        · simp [getModelNames, hen, hmiss, hce]
          decide
      · simp [getModelNames, hen]
        decide

/-- A reachable remote environment with no models at all. -/
def envNoModels : Env :=
  { storePages := [], storesErr := none, filePages := [], filesErr := none,
    docPages := fun _ => [], docsErr := fun _ => none,
    modelPages := [], modelsErr := none, clientErr := none }

/-- Claim C10 witness: the fallback theorem applied at the disabled completer,
at the failing remote, and at a reachable remote with an empty model
listing. -/
theorem getModelNames_default_fallback_witness :
    completerOff.enabled = false ∧
    (getModelNames completerOff envFail 0).1 = getModelList ∧
    cacheGet completerOn.cache 0 "models" = (none, false) ∧
    envFail.clientErr = some "GEMINI_API_KEY not set" ∧
    (getModelNames completerOn envFail 0).1 = getModelList ∧
    envNoModels.clientErr = none ∧ envNoModels.modelPages.flatten = [] ∧
    (getModelNames completerOn envNoModels 0).1 = getModelList ∧
    (getModelNames completerOn envNoModels 0).1 ≠ [] :=
  ⟨rfl,
   (getModelNames_default_fallback completerOff envFail 0).1 rfl,
   rfl, rfl,
   ((getModelNames_default_fallback completerOn envFail 0).2.1 rfl).1
     "GEMINI_API_KEY not set" rfl,
   rfl, rfl,
   ((getModelNames_default_fallback completerOn envNoModels 0).2.1 rfl).2.2.1 rfl rfl,
   ((getModelNames_default_fallback completerOn envNoModels 0).2.1 rfl).2.2.2⟩
